import Mathlib

/-!
Verification of the period hierarchy of `schedule/periods.py`.

The development has two layers:

* a calendar layer modelling the proleptic-Gregorian date arithmetic of
  Python's `datetime` library (dates, day-number conversions, `timedelta`
  day arithmetic, `isoweekday`), on which the `Year`/`Month`/`Week`/`Day`
  range computations and `get_periods` subdivision of `periods.py` are
  embedded;

* an occurrence layer embedding the base `Period` class: construction,
  `classify_occurrence`, `_get_sorted_occurrences`,
  `cached_get_sorted_occurrences` and `get_persisted_occurrences`, with
  instants as integers and the storage collaborator as an explicit
  function parameter.
-/

set_option maxHeartbeats 1000000
set_option maxRecDepth 8000

/-- A proleptic-Gregorian calendar date, modelling Python `datetime.date`
(equivalently, the midnight `datetime.datetime` values which are the only
instants `periods.py` ever uses as period boundaries). -/
structure Date where
  year : Int
  month : Int
  day : Int
deriving DecidableEq

/-- Day count of the civil year-start table used in day-number
conversions: days from the start of an era to the start of year-of-era
`y` (March-based years, Hinnant's algorithm). -/
def doeD (y : Int) : Int := 365 * y + y / 4 - y / 100

/-- The year-of-era estimator numerator of Hinnant's `civil_from_days`
algorithm. -/
def qdoe (doe : Int) : Int := doe - doe / 1460 + doe / 36524 - doe / 146096

/-- Days from 1970-01-01 to the given date (negative for earlier dates),
modelling the day arithmetic of Python `datetime` on the proleptic
Gregorian calendar (Hinnant's `days_from_civil`).  All integer divisions
have positive divisors, so `Int` division agrees with Python's floor
division. -/
def dateToDay (dt : Date) : Int :=
  let y : Int := if dt.month ≤ 2 then dt.year - 1 else dt.year
  let era : Int := y / 400
  let yoe : Int := y - era * 400
  let mp : Int := if dt.month > 2 then dt.month - 3 else dt.month + 9
  let doy : Int := (153 * mp + 2) / 5 + dt.day - 1
  era * 146097 + (365 * yoe + yoe / 4 - yoe / 100 + doy) - 719468

/-- The date lying the given number of days after 1970-01-01, modelling
the inverse conversion of Python `datetime` (Hinnant's
`civil_from_days`). -/
def dayToDate (z : Int) : Date :=
  let era := (z + 719468) / 146097
  let doe := z + 719468 - era * 146097
  let y := (doe - doe / 1460 + doe / 36524 - doe / 146096) / 365
  let doy := doe - (365 * y + y / 4 - y / 100)
  let mp := (5 * doy + 2) / 153
  let dd := doy - (153 * mp + 2) / 5 + 1
  let m := if mp < 10 then mp + 3 else mp - 9
  ⟨if m ≤ 2 then y + era * 400 + 1 else y + era * 400, m, dd⟩

/-- Number of days of month `m` of year `y` in the proleptic Gregorian
calendar. -/
def monthLen (y m : Int) : Int :=
  if m = 2 then (if y % 4 = 0 ∧ (y % 100 ≠ 0 ∨ y % 400 = 0) then 29 else 28)
  else if m = 4 ∨ m = 6 ∨ m = 9 ∨ m = 11 then 30 else 31

/-- A structurally well-formed civil date (every Python `datetime.date`
satisfies this). -/
def Date.Valid (d : Date) : Prop :=
  1 ≤ d.month ∧ d.month ≤ 12 ∧ 1 ≤ d.day ∧ d.day ≤ monthLen d.year d.month

instance (d : Date) : Decidable d.Valid := by
  unfold Date.Valid
  infer_instance

/-- Adding `n` days to a date, modelling Python
`datetime.timedelta(days = n)` arithmetic on dates and on midnight
datetimes. -/
def addDays (d : Date) (n : Int) : Date := dayToDate (dateToDay d + n)

/-- ISO weekday (Monday = 1, …, Sunday = 7) of a date, modelling Python
`datetime.date.isoweekday()`.  Day 0 (1970-01-01) is a Thursday. -/
def Date.isoweekday (d : Date) : Int := (dateToDay d + 3) % 7 + 1

theorem qdoe_mono : ∀ a b : Int, 0 ≤ a → a ≤ b → qdoe a ≤ qdoe b := by
  intro a b h1 h2
  unfold qdoe
  omega

theorem qdoe_lower : ∀ n : Nat, n < 400 → 365 * (n : Int) ≤ qdoe (doeD (n : Int)) := by decide

theorem qdoe_upper : ∀ n : Nat, n < 400 → qdoe (doeD ((n : Int) + 1) - 1) ≤ 365 * (n : Int) + 364 := by
  decide

theorem doe_bracket (doe : Int) (h0 : 0 ≤ doe) (h1 : doe < 146097) :
    0 ≤ qdoe doe / 365 ∧ qdoe doe / 365 ≤ 399 ∧
    doeD (qdoe doe / 365) ≤ doe ∧ doe - doeD (qdoe doe / 365) ≤ 365 := by
  have hq0 : 0 ≤ qdoe doe := by unfold qdoe; omega
  have hq1 : qdoe doe ≤ 145999 := by unfold qdoe; omega
  have hy0 : 0 ≤ qdoe doe / 365 := by omega
  have hy1 : qdoe doe / 365 ≤ 399 := by omega
  refine ⟨hy0, hy1, ?_, ?_⟩
  · by_contra hlt
    push_neg at hlt
    have hyge : 1 ≤ qdoe doe / 365 := by
      by_contra hy
      have hz : qdoe doe / 365 = 0 := by omega
      rw [hz] at hlt
      unfold doeD at hlt
      omega
    have hm : qdoe doe ≤ qdoe (doeD (qdoe doe / 365) - 1) :=
      qdoe_mono _ _ h0 (by omega)
    have hu := qdoe_upper (qdoe doe / 365 - 1).toNat (by omega)
    have hcast : ((qdoe doe / 365 - 1).toNat : Int) = qdoe doe / 365 - 1 :=
      Int.toNat_of_nonneg (by omega)
    rw [hcast] at hu
    have hstep : qdoe doe / 365 - 1 + 1 = qdoe doe / 365 := by omega
    rw [hstep] at hu
    omega
  · by_contra hgt
    push_neg at hgt
    rcases eq_or_lt_of_le hy1 with h399 | hlt399
    · have hD : doeD 399 = 145731 := by decide
      rw [← h399] at hD
      omega
    · have hD : doeD (qdoe doe / 365 + 1) ≤ doeD (qdoe doe / 365) + 366 := by
        unfold doeD
        omega
      have hm : qdoe (doeD (qdoe doe / 365 + 1)) ≤ qdoe doe :=
        qdoe_mono _ _ (by unfold doeD; omega) (by omega)
      have hl := qdoe_lower (qdoe doe / 365 + 1).toNat (by omega)
      have hcast : ((qdoe doe / 365 + 1).toNat : Int) = qdoe doe / 365 + 1 :=
        Int.toNat_of_nonneg (by omega)
      rw [hcast] at hl
      omega

/-- The day-number conversions are mutually inverse: converting a day
number to a civil date and back is the identity. -/
theorem dateToDay_dayToDate (z : Int) : dateToDay (dayToDate z) = z := by
  have h := doe_bracket (z + 719468 - ((z + 719468) / 146097) * 146097) (by omega) (by omega)
  unfold qdoe doeD at h
  obtain ⟨h1, h2, h3, h4⟩ := h
  simp only [dayToDate, dateToDay]
  split_ifs
  all_goals try simp only [Int.add_sub_cancel, Int.sub_add_cancel]
  all_goals rw [Int.add_mul_ediv_right _ _ (by norm_num : (400 : Int) ≠ 0),
    Int.ediv_eq_zero_of_lt h1 (by omega)]
  all_goals simp only [zero_add, Int.add_sub_cancel]
  all_goals omega

theorem dateToDay_addDays (d : Date) (n : Int) : dateToDay (addDays d n) = dateToDay d + n := by
  unfold addDays
  exact dateToDay_dayToDate _

theorem yoe_recover (yoe doy : Int) (h0 : 0 ≤ yoe) (h1 : yoe ≤ 399) (h2 : 0 ≤ doy)
    (h3 : doy ≤ 364 ∨ (doy = 365 ∧ (yoe + 1) % 4 = 0 ∧ ((yoe + 1) % 100 ≠ 0 ∨ yoe = 399))) :
    qdoe (doeD yoe + doy) / 365 = yoe := by
  have hlo := qdoe_mono (doeD yoe) (doeD yoe + doy) (by unfold doeD; omega) (by omega)
  have hl := qdoe_lower yoe.toNat (by omega)
  rw [Int.toNat_of_nonneg h0] at hl
  rcases h3 with h3 | ⟨h3a, h3b, h3c⟩
  · have hhi := qdoe_mono (doeD yoe + doy) (doeD (yoe + 1) - 1)
      (by unfold doeD; omega) (by unfold doeD; omega)
    have hu := qdoe_upper yoe.toNat (by omega)
    rw [Int.toNat_of_nonneg h0] at hu
    omega
  · rcases h3c with h3c | h399
    · have hhi := qdoe_mono (doeD yoe + doy) (doeD (yoe + 1) - 1)
        (by unfold doeD; omega) (by unfold doeD; omega)
      have hu := qdoe_upper yoe.toNat (by omega)
      rw [Int.toNat_of_nonneg h0] at hu
      omega
    · subst h399
      subst h3a
      decide

theorem dayToDate_eval (z era yoe mp dd : Int)
    (hz : z + 719468 =
      365 * yoe + yoe / 4 - yoe / 100 + ((153 * mp + 2) / 5 + dd - 1) + era * 146097)
    (h0 : 0 ≤ yoe) (h1 : yoe ≤ 399) (h2 : 0 ≤ mp) (h3 : mp ≤ 11) (h4 : 1 ≤ dd)
    (h5 : (153 * mp + 2) / 5 + dd - 1 ≤ 364 ∨
      ((153 * mp + 2) / 5 + dd - 1 = 365 ∧ (yoe + 1) % 4 = 0 ∧
        ((yoe + 1) % 100 ≠ 0 ∨ yoe = 399)))
    (h6 : (5 * ((153 * mp + 2) / 5 + dd - 1) + 2) / 153 = mp) :
    dayToDate z = ⟨if (if mp < 10 then mp + 3 else mp - 9) ≤ 2 then yoe + era * 400 + 1
                   else yoe + era * 400,
                   if mp < 10 then mp + 3 else mp - 9, dd⟩ := by
  have hr := yoe_recover yoe ((153 * mp + 2) / 5 + dd - 1) h0 h1 (by omega) h5
  unfold qdoe doeD at hr
  have hC0 : 0 ≤ (153 * mp + 2) / 5 := by omega
  have hC1 : (153 * mp + 2) / 5 ≤ 337 := by omega
  have hW0 : 0 ≤ 365 * yoe + yoe / 4 - yoe / 100 + ((153 * mp + 2) / 5 + dd - 1) := by omega
  have hW1 : 365 * yoe + yoe / 4 - yoe / 100 + ((153 * mp + 2) / 5 + dd - 1) < 146097 := by
    omega
  simp only [dayToDate]
  rw [hz]
  rw [Int.add_mul_ediv_right _ _ (by norm_num : (146097 : Int) ≠ 0),
    Int.ediv_eq_zero_of_lt hW0 hW1]
  simp only [zero_add, Int.add_sub_cancel]
  rw [hr]
  rw [add_sub_cancel_left, h6]
  have hdd : (153 * mp + 2) / 5 + dd - 1 - (153 * mp + 2) / 5 + 1 = dd := by omega
  rw [hdd]

/-- The day-number conversions are mutually inverse on well-formed civil
dates: converting a date to its day number and back is the identity. -/
theorem dayToDate_dateToDay (d : Date) (h : d.Valid) : dayToDate (dateToDay d) = d := by
  obtain ⟨Y, M, D⟩ := d
  obtain ⟨hm1, hm2, hd1, hd2⟩ := h
  simp only at hm1 hm2 hd1 hd2
  rcases le_or_lt M 2 with hm | hm
  · interval_cases M
    · refine (dayToDate_eval (dateToDay ⟨Y, 1, D⟩) ((Y - 1) / 400)
        (Y - 1 - (Y - 1) / 400 * 400) 10 D ?_ (by omega) (by omega) (by omega) (by omega)
        hd1 ?_ ?_).trans ?_
      · simp only [dateToDay]
        norm_num
        omega
      · norm_num [monthLen] at hd2
        omega
      · norm_num [monthLen] at hd2
        omega
      · simp only [Date.mk.injEq]
        norm_num
    · refine (dayToDate_eval (dateToDay ⟨Y, 2, D⟩) ((Y - 1) / 400)
        (Y - 1 - (Y - 1) / 400 * 400) 11 D ?_ (by omega) (by omega) (by omega) (by omega)
        hd1 ?_ ?_).trans ?_
      · simp only [dateToDay]
        norm_num
        omega
      · norm_num [monthLen] at hd2
        split_ifs at hd2 with hleap
        · obtain ⟨hl4, hl100⟩ := hleap
          rcases hl100 with hl100 | hl400
          · omega
          · omega
        · omega
      · norm_num [monthLen] at hd2
        split_ifs at hd2 <;> omega
      · simp only [Date.mk.injEq]
        norm_num
  · interval_cases M
    · refine (dayToDate_eval (dateToDay ⟨Y, 3, D⟩) (Y / 400)
        (Y - Y / 400 * 400) 0 D ?_ (by omega) (by omega) (by omega) (by omega)
        hd1 ?_ ?_).trans ?_
      · simp only [dateToDay]
        norm_num
        omega
      · norm_num [monthLen] at hd2
        omega
      · norm_num [monthLen] at hd2
        omega
      · simp only [Date.mk.injEq]
        norm_num
    · refine (dayToDate_eval (dateToDay ⟨Y, 4, D⟩) (Y / 400)
        (Y - Y / 400 * 400) 1 D ?_ (by omega) (by omega) (by omega) (by omega)
        hd1 ?_ ?_).trans ?_
      · simp only [dateToDay]
        norm_num
        omega
      · norm_num [monthLen] at hd2
        omega
      · norm_num [monthLen] at hd2
        omega
      · simp only [Date.mk.injEq]
        norm_num
    · refine (dayToDate_eval (dateToDay ⟨Y, 5, D⟩) (Y / 400)
        (Y - Y / 400 * 400) 2 D ?_ (by omega) (by omega) (by omega) (by omega)
        hd1 ?_ ?_).trans ?_
      · simp only [dateToDay]
        norm_num
        omega
      · norm_num [monthLen] at hd2
        omega
      · norm_num [monthLen] at hd2
        omega
      · simp only [Date.mk.injEq]
        norm_num
    · refine (dayToDate_eval (dateToDay ⟨Y, 6, D⟩) (Y / 400)
        (Y - Y / 400 * 400) 3 D ?_ (by omega) (by omega) (by omega) (by omega)
        hd1 ?_ ?_).trans ?_
      · simp only [dateToDay]
        norm_num
        omega
      · norm_num [monthLen] at hd2
        omega
      · norm_num [monthLen] at hd2
        omega
      · simp only [Date.mk.injEq]
        norm_num
    · refine (dayToDate_eval (dateToDay ⟨Y, 7, D⟩) (Y / 400)
        (Y - Y / 400 * 400) 4 D ?_ (by omega) (by omega) (by omega) (by omega)
        hd1 ?_ ?_).trans ?_
      · simp only [dateToDay]
        norm_num
        omega
      · norm_num [monthLen] at hd2
        omega
      · norm_num [monthLen] at hd2
        omega
      · simp only [Date.mk.injEq]
        norm_num
    · refine (dayToDate_eval (dateToDay ⟨Y, 8, D⟩) (Y / 400)
        (Y - Y / 400 * 400) 5 D ?_ (by omega) (by omega) (by omega) (by omega)
        hd1 ?_ ?_).trans ?_
      · simp only [dateToDay]
        norm_num
        omega
      · norm_num [monthLen] at hd2
        omega
      · norm_num [monthLen] at hd2
        omega
      · simp only [Date.mk.injEq]
        norm_num
    · refine (dayToDate_eval (dateToDay ⟨Y, 9, D⟩) (Y / 400)
        (Y - Y / 400 * 400) 6 D ?_ (by omega) (by omega) (by omega) (by omega)
        hd1 ?_ ?_).trans ?_
      · simp only [dateToDay]
        norm_num
        omega
      · norm_num [monthLen] at hd2
        omega
      · norm_num [monthLen] at hd2
        omega
      · simp only [Date.mk.injEq]
        norm_num
    · refine (dayToDate_eval (dateToDay ⟨Y, 10, D⟩) (Y / 400)
        (Y - Y / 400 * 400) 7 D ?_ (by omega) (by omega) (by omega) (by omega)
        hd1 ?_ ?_).trans ?_
      · simp only [dateToDay]
        norm_num
        omega
      · norm_num [monthLen] at hd2
        omega
      · norm_num [monthLen] at hd2
        omega
      · simp only [Date.mk.injEq]
        norm_num
    · refine (dayToDate_eval (dateToDay ⟨Y, 11, D⟩) (Y / 400)
        (Y - Y / 400 * 400) 8 D ?_ (by omega) (by omega) (by omega) (by omega)
        hd1 ?_ ?_).trans ?_
      · simp only [dateToDay]
        norm_num
        omega
      · norm_num [monthLen] at hd2
        omega
      · norm_num [monthLen] at hd2
        omega
      · simp only [Date.mk.injEq]
        norm_num
    · refine (dayToDate_eval (dateToDay ⟨Y, 12, D⟩) (Y / 400)
        (Y - Y / 400 * 400) 9 D ?_ (by omega) (by omega) (by omega) (by omega)
        hd1 ?_ ?_).trans ?_
      · simp only [dateToDay]
        norm_num
        omega
      · norm_num [monthLen] at hd2
        omega
      · norm_num [monthLen] at hd2
        omega
      · simp only [Date.mk.injEq]
        norm_num

/-!
Calendar period ranges.  Each `Year`/`Month`/`Week`/`Day` object of
`periods.py` is determined by its `[start, end)` boundary, always a pair
of midnight datetimes; we embed each subclass constructor as the
function from its reference date to that boundary pair, translated from
`_get_year_range`, `_get_month_range`, `_get_week_range` and
`_get_day_range`.
-/

/-- Model of `Year._get_year_range`: January 1 of the reference year to
January 1 of the following year. -/
def yearRange (d : Date) : Date × Date :=
  (⟨d.year, 1, 1⟩, ⟨d.year + 1, 1, 1⟩)

/-- Model of `Month._get_month_range`: the first of the reference month to the
first of the following month, December rolling over to January of the
next year. -/
def monthRange (d : Date) : Date × Date :=
  let start : Date := ⟨d.year, d.month, 1⟩
  let stop : Date := if d.month = 12 then ⟨d.year + 1, 1, 1⟩ else ⟨d.year, d.month + 1, 1⟩
  (start, stop)

/-- Model of `Week._get_week_range`, parametrised by the `FIRST_DAY_OF_WEEK`
setting (`1` = Monday, otherwise Sunday): midnight of the configured
week-start weekday on or before the reference date, to seven days
later. -/
def weekRange (firstDayOfWeek : Int) (d : Date) : Date × Date :=
  let sub_days : Int :=
    if firstDayOfWeek = 1 then d.isoweekday - 1
    else if d.isoweekday = 7 then 0 else d.isoweekday
  let start := if sub_days > 0 then addDays d (-sub_days) else d
  (start, addDays start 7)

/-- Model of `Day._get_day_range`: midnight of the reference date to one day
later. -/
def dayRange (d : Date) : Date × Date :=
  (d, addDays d 1)

/-- Model of `Day.next_day`: the `Day` anchored at this day's `end`. -/
def day_next (p : Date × Date) : Date × Date := dayRange p.2

/-- Model of `Day.prev_day`: the `Day` anchored at `start - timedelta(days=1)`. -/
def day_prev (p : Date × Date) : Date × Date := dayRange (addDays p.1 (-1))

/-- Model of `Month.next_month`: the `Month` anchored at this month's `end`. -/
def month_next (p : Date × Date) : Date × Date := monthRange p.2

/-- Model of `Month.get_day`: the `Day` anchored `daynumber - 1` days after the
month's start (no shift when `daynumber` is not greater than 1). -/
def month_get_day (mstart : Date) (daynumber : Int) : Date × Date :=
  dayRange (if daynumber > 1 then addDays mstart (daynumber - 1) else mstart)

/-- One step of `Period.get_periods`: while the current sub-period
starts before the parent's `end`, yield the sub-period re-anchored at
its own start, then advance to the sub-period anchored at the current
sub-period's `end` (each variant's `next()` is the variant anchored at
its `end`).  `fuel` bounds the number of loop iterations; since every
variant's range spans at least one day, `(end - start) + 1` iterations
always suffice, which is what `getPeriods` supplies. -/
def getPeriodsAux (r : Date → Date × Date) (endDay : Int) : Nat → Date × Date → List (Date × Date)
  | 0, _ => []
  | fuel + 1, cur =>
    if dateToDay cur.1 < endDay then
      r cur.1 :: getPeriodsAux r endDay fuel (r cur.2)
    else []

/-- Model of `Period.get_periods` for a parent period `[pstart, pend)` and a
sub-period variant with range function `r`. -/
def getPeriods (r : Date → Date × Date) (pstart pend : Date) : List (Date × Date) :=
  getPeriodsAux r (dateToDay pend)
    ((dateToDay pend - dateToDay (r pstart).1).toNat + 1) (r pstart)

/-!
The occurrence layer: the base `Period` class of `periods.py` with
instants embedded as integers, the persistence collaborator as an
explicit function parameter, and attribute presence modelled with
`Option`.
-/

/-- An occurrence (the external `schedule.models.Occurrence` entity): a
time-bounded instance of an event with a cancellation flag.  The Python
attribute `end` is named `stop` here because `end` is a Lean keyword. -/
structure Occurrence where
  start : Int
  stop : Int
  cancelled : Bool
deriving DecidableEq

/-- An event (the external `schedule.models.Event` entity), exposing
`get_occurrences(start, end)` which produces the event's occurrences
overlapping the given range. -/
structure Event where
  get_occurrences : Int → Int → List Occurrence

/-- The state of a base `Period` object: `events`, the `[start, end)`
bounds, the optional occurrence pool, the `_persisted_occurrences`
attribute (assigned at construction when a parent supplied one, or by
`get_persisted_occurrences`), the misspelled `_persisted_occurrenes`
attribute which `get_persisted_occurrences` tests for (and which no code
ever assigns), and the `_occurrences` memo of
`cached_get_sorted_occurrences`.  `Option.none` models an absent
attribute. -/
structure Period where
  events : List Event
  start : Int
  stop : Int
  occurrence_pool : Option (List Occurrence)
  persisted_occurrences : Option (List Occurrence)
  persisted_occurrenes : Option (List Occurrence)
  occurrences_memo : Option (List Occurrence)

/-- Model of `Period.__init__(events, start, end, parent_persisted_occurrences,
occurrence_pool)`: stores its inputs with no validation of the range;
`_persisted_occurrences` is assigned exactly when
`parent_persisted_occurrences` is not `None`.  The timezone argument
affects no behaviour any claim concerns and is omitted. -/
def Period.init (events : List Event) (start stop : Int)
    (parent_persisted_occurrences : Option (List Occurrence))
    (occurrence_pool : Option (List Occurrence)) : Period :=
  ⟨events, start, stop, occurrence_pool, parent_persisted_occurrences, none, none⟩

/-- The result dictionary `{'occurrence': ..., 'class': ...}` returned
by `Period.classify_occurrence`. -/
structure Classified where
  occurrence : Occurrence
  cls : Int
deriving DecidableEq

/-- Model of `Period.classify_occurrence`, parametrised by the
`SHOW_CANCELLED_OCCURRENCES` setting: `none` models both the bare
`return` for suppressed cancelled occurrences and the `return None` for
occurrences outside the bounds. -/
def classify_occurrence (showCancelled : Bool) (p : Period) (o : Occurrence) :
    Option Classified :=
  if o.cancelled && !showCancelled then none
  else if decide (o.start > p.stop) || decide (o.stop < p.start) then none
  else
    let started := decide (p.start ≤ o.start) && decide (o.start < p.stop)
    let ended := decide (p.start ≤ o.stop) && decide (o.stop < p.stop)
    if started && ended then some ⟨o, 1⟩
    else if started then some ⟨o, 0⟩
    else if ended then some ⟨o, 3⟩
    else some ⟨o, 2⟩

/-- Modelled from the spec: the ordering used by Python's `sorted` in
`_get_sorted_occurrences`.  `Occurrence` is an external entity whose
comparison methods are not part of `src/`; per the spec it is "ordered
by its natural start/end ordering", i.e. by `(start, end)`
lexicographically. -/
def occLe (a b : Occurrence) : Bool :=
  decide (a.start < b.start) || (decide (a.start = b.start) && decide (a.stop ≤ b.stop))

/-- Model of `Period._get_sorted_occurrences`: with a pool, filter it by the
strict overlap test `occ.start < end and occ.end > start`, preserving
pool order and not sorting; otherwise concatenate every event's
occurrences for the range and sort the concatenation. -/
def get_sorted_occurrences (p : Period) : List Occurrence :=
  match p.occurrence_pool with
  | some pool => pool.filter (fun o => decide (o.start < p.stop) && decide (o.stop > p.start))
  | none =>
      (p.events.foldl (fun acc e => acc ++ e.get_occurrences p.start p.stop) []).mergeSort occLe

/-- Model of `Period.cached_get_sorted_occurrences` (the `occurrences` property):
return the `_occurrences` memo when present, otherwise compute the
sorted occurrences and store them.  The updated object state is returned
alongside the value. -/
def cached_get_sorted_occurrences (p : Period) : List Occurrence × Period :=
  match p.occurrences_memo with
  | some occs => (occs, p)
  | none =>
      let occs := get_sorted_occurrences p
      (occs, ⟨p.events, p.start, p.stop, p.occurrence_pool, p.persisted_occurrences,
              p.persisted_occurrenes, some occs⟩)

/-- Model of `Period.get_persisted_occurrences`, with the storage collaborator
(`Occurrence.objects.filter(event__in=self.events)`) passed as a
function.  The returned number counts the storage queries made by this
call.  The code tests the misspelled attribute `_persisted_occurrenes`;
in its (unreachable in the source, since nothing assigns the misspelled
name) `some` branch it would return `_persisted_occurrences`, modelled
with a `[]` default for the attribute-error case. -/
def get_persisted_occurrences (storage : List Event → List Occurrence) (p : Period) :
    List Occurrence × Period × Nat :=
  match p.persisted_occurrenes with
  | some _ => (p.persisted_occurrences.getD [], p, 0)
  | none =>
      let occs := storage p.events
      (occs, ⟨p.events, p.start, p.stop, p.occurrence_pool, some occs,
              p.persisted_occurrenes, p.occurrences_memo⟩, 1)

theorem occLe_trans : ∀ a b c : Occurrence, occLe a b = true → occLe b c = true → occLe a c = true := by
  intro a b c hab hbc
  unfold occLe at *
  simp only [Bool.or_eq_true, Bool.and_eq_true, decide_eq_true_eq] at *
  omega

theorem occLe_total : ∀ a b : Occurrence, occLe a b || occLe b a := by
  intro a b
  unfold occLe
  simp only [Bool.or_eq_true, Bool.and_eq_true, decide_eq_true_eq]
  omega

/-- C1: whenever `classify_occurrence` neither suppresses the occurrence
(cancelled with cancelled display disabled) nor rejects it
(out of bounds), the returned class is determined by the flags
`started = (start ≤ occ.start < end)` and `ended = (start ≤ occ.end < end)`:
class 1 when started and ended, class 0 when started only, class 3 when
ended only, class 2 when neither; in particular an occurrence fully
inside `[start, end)` gets class 1, and one starting before `start` and
ending after `end` gets class 2. -/
theorem classify_occurrence_classes (showCancelled : Bool) (p : Period) (o : Occurrence)
    (hsup : ¬(o.cancelled = true ∧ showCancelled = false))
    (hrej : ¬(o.start > p.stop ∨ o.stop < p.start)) :
    classify_occurrence showCancelled p o =
      some ⟨o, if (p.start ≤ o.start ∧ o.start < p.stop) ∧ (p.start ≤ o.stop ∧ o.stop < p.stop)
               then 1
               else if p.start ≤ o.start ∧ o.start < p.stop then 0
               else if p.start ≤ o.stop ∧ o.stop < p.stop then 3
               else 2⟩ ∧
    ((p.start ≤ o.start ∧ o.start < p.stop ∧ p.start ≤ o.stop ∧ o.stop < p.stop) →
      classify_occurrence showCancelled p o = some ⟨o, 1⟩) ∧
    ((o.start < p.start ∧ p.stop < o.stop) →
      classify_occurrence showCancelled p o = some ⟨o, 2⟩) := by
  unfold classify_occurrence
  have hg1 : (o.cancelled && !showCancelled) = false := by
    cases hc : o.cancelled <;> cases hs : showCancelled <;> simp_all
  have hg2 : (decide (o.start > p.stop) || decide (o.stop < p.start)) = false := by
    simp only [Bool.or_eq_false_iff, decide_eq_false_iff_not]
    omega
  rw [hg1, hg2]
  simp only [Bool.false_eq_true, if_false, Bool.and_eq_true, decide_eq_true_eq]
  refine ⟨?_, ?_, ?_⟩
  · split_ifs <;> simp_all
  · intro hin
    split_ifs <;> simp_all
  · intro hout
    split_ifs <;> simp_all <;> omega

theorem classify_occurrence_classes_witness :
    (¬((false : Bool) = true ∧ (true : Bool) = false)) ∧
    (¬((2 : Int) > 10 ∨ (5 : Int) < 0)) ∧
    classify_occurrence true (Period.init [] 0 10 none none) ⟨2, 5, false⟩ =
      some ⟨⟨2, 5, false⟩, 1⟩ :=
  ⟨by decide, by decide,
    (classify_occurrence_classes true (Period.init [] 0 10 none none) ⟨2, 5, false⟩
      (by decide) (by decide)).2.1 (by decide)⟩

/-- C2 counterexample: for the period `[0, 10)` the occurrence spanning
`[10, 12]` starts exactly at the period's `end`, hence does not
intersect the half-open range `[0, 10)`, yet `classify_occurrence`
returns class 2 rather than no result. -/
theorem classify_occurrence_boundary_counterexample :
    (Period.init [] 0 10 none none).stop ≤ (10 : Int) ∧
    classify_occurrence true (Period.init [] 0 10 none none) ⟨10, 12, false⟩ =
      some ⟨⟨10, 12, false⟩, 2⟩ ∧
    classify_occurrence true (Period.init [] 0 10 none none) ⟨10, 12, false⟩ ≠ none := by
  refine ⟨by decide, by decide, by decide⟩

/-- C2 amended: `classify_occurrence` returns no result iff the
occurrence is cancelled while cancelled display is disabled (regardless
of overlap), or the occurrence lies strictly outside the closed range
`[start, end]`, i.e. `occ.start > end` or `occ.end < start`; occurrences
touching the boundary (`occ.start = end` or `occ.end = start`) are still
classified, and no case is an error. -/
theorem classify_occurrence_none_iff (showCancelled : Bool) (p : Period) (o : Occurrence) :
    classify_occurrence showCancelled p o = none ↔
      ((o.cancelled = true ∧ showCancelled = false) ∨
        (o.start > p.stop ∨ o.stop < p.start)) := by
  unfold classify_occurrence
  rcases hc : o.cancelled <;> rcases hs : showCancelled <;>
    simp only [Bool.and_eq_true, Bool.not_eq_true', Bool.true_and, Bool.false_and,
      Bool.and_false, Bool.and_true, Bool.not_true, Bool.not_false] <;>
    split_ifs <;>
    simp_all

theorem foldl_append_nil (f : Event → List Occurrence) :
    ∀ events : List Event, (∀ e ∈ events, f e = []) →
      events.foldl (fun acc e => acc ++ f e) [] = [] := by
  have haux : ∀ (events : List Event) (acc : List Occurrence), (∀ e ∈ events, f e = []) →
      events.foldl (fun acc e => acc ++ f e) acc = acc := by
    intro events
    induction events with
    | nil => intro acc _; rfl
    | cons e es ih =>
      intro acc h
      have he : f e = [] := h e (by simp)
      simp only [List.foldl_cons, he, List.append_nil]
      exact ih acc (fun x hx => h x (by simp [hx]))
  intro events h
  exact haux events [] h

/-- C9 counterexample: a base `Period` constructed directly with
`start = 5 > 0 = end` and an occurrence pool containing `[-1, 10]` is
not rejected, but its occurrences are not empty: the pool element passes
the strict overlap test `occ.start < end and occ.end > start`. -/
theorem empty_range_counterexample :
    (Period.init [] 5 0 none (some [⟨-1, 10, false⟩])).stop ≤
      (Period.init [] 5 0 none (some [⟨-1, 10, false⟩])).start ∧
    get_sorted_occurrences (Period.init [] 5 0 none (some [⟨-1, 10, false⟩])) =
      [⟨-1, 10, false⟩] := by
  refine ⟨by decide, by decide⟩

/-- C9 amended: constructing a base `Period` directly with
`start ≥ end` is not rejected — the object is built with exactly the
given bounds — and when no occurrence pool was supplied and the events
honour the range contract (returning only occurrences that intersect
the set `[start, end)`, which is empty here), its occurrences are empty;
a supplied occurrence pool, however, can still contribute occurrences
satisfying `occ.start < end and occ.end > start`. -/
theorem empty_range_silent (events : List Event) (start stop : Int)
    (h : stop ≤ start)
    (hev : ∀ e ∈ events, ∀ o ∈ e.get_occurrences start stop,
      ∃ x : Int, start ≤ x ∧ x < stop) :
    (Period.init events start stop none none).start = start ∧
    (Period.init events start stop none none).stop = stop ∧
    get_sorted_occurrences (Period.init events start stop none none) = [] := by
  refine ⟨rfl, rfl, ?_⟩
  unfold get_sorted_occurrences Period.init
  have hnil : ∀ e ∈ events, e.get_occurrences start stop = [] := by
    intro e he
    rcases hcase : e.get_occurrences start stop with _ | ⟨o, os⟩
    · rfl
    · exfalso
      obtain ⟨x, hx1, hx2⟩ := hev e he o (by rw [hcase]; exact List.mem_cons_self o os)
      omega
  rw [foldl_append_nil _ events hnil]
  simp

theorem empty_range_silent_witness :
    ((0 : Int) ≤ 5) ∧
    get_sorted_occurrences (Period.init [⟨fun _ _ => []⟩] 5 0 none none) = [] :=
  ⟨by decide,
    (empty_range_silent [⟨fun _ _ => []⟩] 5 0 (by decide)
      (by
        intro e he o ho
        rw [List.mem_singleton] at he
        subst he
        exact absurd ho (List.not_mem_nil o))).2.2⟩

/-- C7: for a period with no occurrences memo yet, `occurrences`
behaves as follows, and the result is cached after the first
computation: with an occurrence pool, exactly the pool elements passing
the strict overlap test `occ.start < end and occ.end > start` are
returned, in pool order (a sublist of the pool — no sorting); without a
pool, the result is a permutation of the concatenation of every event's
occurrences for the range, sorted by the natural `(start, end)`
ordering; the first call stores the result in the `_occurrences`
attribute, and a further call returns the stored value with no
recomputation and no state change. -/
theorem occurrences_spec (p : Period) (hmemo : p.occurrences_memo = none) :
    (∀ pool, p.occurrence_pool = some pool →
      get_sorted_occurrences p =
        pool.filter (fun o => decide (o.start < p.stop) && decide (o.stop > p.start)) ∧
      (get_sorted_occurrences p).Sublist pool) ∧
    (p.occurrence_pool = none →
      (get_sorted_occurrences p).Perm
        (p.events.foldl (fun acc e => acc ++ e.get_occurrences p.start p.stop) []) ∧
      (get_sorted_occurrences p).Pairwise (fun a b => occLe a b = true)) ∧
    cached_get_sorted_occurrences p =
      (get_sorted_occurrences p,
       ⟨p.events, p.start, p.stop, p.occurrence_pool, p.persisted_occurrences,
        p.persisted_occurrenes, some (get_sorted_occurrences p)⟩) ∧
    cached_get_sorted_occurrences (cached_get_sorted_occurrences p).2 =
      ((cached_get_sorted_occurrences p).1, (cached_get_sorted_occurrences p).2) := by
  refine ⟨?_, ?_, ?_, ?_⟩
  · intro pool hp
    unfold get_sorted_occurrences
    rw [hp]
    exact ⟨rfl, List.filter_sublist pool⟩
  · intro hp
    unfold get_sorted_occurrences
    rw [hp]
    exact ⟨List.mergeSort_perm _ occLe, List.sorted_mergeSort occLe_trans occLe_total _⟩
  · unfold cached_get_sorted_occurrences
    rw [hmemo]
  · unfold cached_get_sorted_occurrences
    rw [hmemo]

theorem occurrences_spec_witness :
    (Period.init [] 0 10 none
        (some [⟨1, 2, false⟩, ⟨20, 30, false⟩])).occurrences_memo = none ∧
    get_sorted_occurrences (Period.init [] 0 10 none
        (some [⟨1, 2, false⟩, ⟨20, 30, false⟩])) = [⟨1, 2, false⟩] :=
  ⟨rfl, by
    have h := (occurrences_spec
        (Period.init [] 0 10 none (some [⟨1, 2, false⟩, ⟨20, 30, false⟩])) rfl).1
        [⟨1, 2, false⟩, ⟨20, 30, false⟩] rfl
    rw [h.1]
    decide⟩

/-- C8: `get_persisted_occurrences` is not memoized as intended — it
tests the misspelled attribute `_persisted_occurrenes`, which nothing
ever assigns, so every call (the first call on a period whose parent
supplied `parent_persisted_occurrences` included, and every repeated
call) performs one storage query, returns the freshly queried list and
overwrites the stored `_persisted_occurrences`.  Concretely, with
stored occurrences `[⟨0, 1, false⟩]` and storage returning
`[⟨2, 3, false⟩]`, the call returns the storage result, not the stored
value. -/
theorem get_persisted_occurrences_bug (storage : List Event → List Occurrence)
    (events : List Event) (start stop : Int)
    (parent : Option (List Occurrence)) (pool : Option (List Occurrence)) :
    (get_persisted_occurrences storage (Period.init events start stop parent pool)).1 =
      storage events ∧
    (get_persisted_occurrences storage (Period.init events start stop parent pool)).2.2 = 1 ∧
    (get_persisted_occurrences storage
      (get_persisted_occurrences storage
        (Period.init events start stop parent pool)).2.1).2.2 = 1 ∧
    (Period.init [] 0 1 (some [⟨0, 1, false⟩]) none).persisted_occurrences =
      some [⟨0, 1, false⟩] ∧
    (get_persisted_occurrences (fun _ => [⟨2, 3, false⟩])
      (Period.init [] 0 1 (some [⟨0, 1, false⟩]) none)).1 = [⟨2, 3, false⟩] ∧
    (get_persisted_occurrences (fun _ => [⟨2, 3, false⟩])
      (Period.init [] 0 1 (some [⟨0, 1, false⟩]) none)).2.2 = 1 :=
  ⟨rfl, rfl, rfl, rfl, rfl, rfl⟩

theorem addDays_addDays (s : Date) (a b : Int) : addDays (addDays s a) b = addDays s (a + b) := by
  unfold addDays
  rw [dateToDay_dayToDate, add_assoc]

theorem getPeriodsAux_spec (r : Date → Date × Date) (e : Int) :
    ∀ (n : Nat) (f : Nat → Date × Date) (fuel : Nat) (cur : Date × Date),
      cur = f 0 →
      (∀ k, k < n → dateToDay (f k).1 < e) →
      (∀ k, k < n → r (f k).1 = f k) →
      (∀ k, k < n → r (f k).2 = f (k + 1)) →
      ¬ dateToDay (f n).1 < e →
      n + 1 ≤ fuel →
      getPeriodsAux r e fuel cur = (List.range n).map f := by
  intro n
  induction n with
  | zero =>
    intro f fuel cur hcur hg hr hs hstop hfuel
    subst hcur
    match fuel, hfuel with
    | fuel + 1, _ =>
      simp only [getPeriodsAux, if_neg hstop, List.range_zero, List.map_nil]
  | succ n ih =>
    intro f fuel cur hcur hg hr hs hstop hfuel
    subst hcur
    match fuel, hfuel with
    | fuel + 1, hfuel =>
      have hg0 := hg 0 (Nat.succ_pos n)
      simp only [getPeriodsAux, if_pos hg0]
      rw [hr 0 (Nat.succ_pos n), hs 0 (Nat.succ_pos n)]
      rw [ih (fun k => f (k + 1)) fuel (f (0 + 1)) rfl
        (fun k hk => hg (k + 1) (by omega))
        (fun k hk => hr (k + 1) (by omega))
        (fun k hk => hs (k + 1) (by omega))
        hstop (by omega)]
      rw [List.range_succ_eq_map, List.map_cons, List.map_map]
      rfl

theorem head_range_map {α : Type} (f : Nat → α) (n : Nat) (h : n ≠ 0) :
    ((List.range n).map f).head? = some (f 0) := by
  cases n with
  | zero => exact absurd rfl h
  | succ n =>
    rw [List.range_succ_eq_map, List.map_cons]
    rfl

theorem last_range_map {α : Type} (f : Nat → α) (n : Nat) (h : n ≠ 0) :
    ((List.range n).map f).getLast? = some (f (n - 1)) := by
  cases n with
  | zero => exact absurd rfl h
  | succ n =>
    rw [List.range_succ, List.map_append]
    simp

theorem chain_range_map {α : Type} (f : Nat → α × α) (n : Nat)
    (h : ∀ k, k + 1 < n → (f k).2 = (f (k + 1)).1) :
    List.Chain' (fun a b => a.2 = b.1) ((List.range n).map f) := by
  rw [List.chain'_map]
  cases n with
  | zero => simp
  | succ n =>
    rw [List.chain'_range_succ]
    intro m hm
    exact h m (by omega)

theorem monthLen_ge (y m : Int) : 28 ≤ monthLen y m := by
  unfold monthLen
  split_ifs <;> omega

theorem monthRange_days (y m : Int) (h1 : 1 ≤ m) (h2 : m ≤ 12) :
    dateToDay (monthRange ⟨y, m, 1⟩).2 = dateToDay ⟨y, m, 1⟩ + monthLen y m := by
  interval_cases m <;>
    simp only [monthRange, monthLen, dateToDay] <;> norm_num <;>
    (try split_ifs) <;> omega

theorem month_start_lt (y m : Int) (h1 : 1 ≤ m) (h2 : m ≤ 12) :
    dateToDay ⟨y, m, 1⟩ < dateToDay ⟨y + 1, 1, 1⟩ := by
  interval_cases m <;> (simp only [dateToDay]; norm_num; all_goals omega)

theorem year_length (y : Int) : 365 ≤ dateToDay ⟨y + 1, 1, 1⟩ - dateToDay ⟨y, 1, 1⟩ := by
  simp only [dateToDay]
  norm_num
  omega

theorem getPeriods_days (s pend : Date) (n : Nat)
    (hcanon : dayToDate (dateToDay s) = s)
    (hend : dateToDay pend = dateToDay s + n) :
    getPeriods dayRange s pend =
      (List.range n).map
        (fun k : Nat => (addDays s (k : Int), addDays s ((k : Int) + 1))) := by
  unfold getPeriods
  have hfst : (dayRange s).1 = s := rfl
  rw [hfst, hend]
  have hfuel : (dateToDay s + (n : Int) - dateToDay s).toNat = n := by omega
  rw [hfuel]
  apply getPeriodsAux_spec
  · show (s, addDays s 1) = (addDays s ((0 : Nat) : Int), addDays s (((0 : Nat) : Int) + 1))
    have h0 : addDays s ((0 : Nat) : Int) = s := by
      unfold addDays
      norm_num
      exact hcanon
    rw [h0]
    norm_num
  · intro k hk
    show dateToDay (addDays s (k : Int)) < dateToDay s + (n : Int)
    rw [dateToDay_addDays]
    omega
  · intro k hk
    show dayRange (addDays s (k : Int)) = _
    unfold dayRange
    rw [addDays_addDays]
  · intro k hk
    show dayRange (addDays s ((k : Int) + 1)) = _
    unfold dayRange
    rw [addDays_addDays]
    push_cast
    ring_nf
  · show ¬ dateToDay (addDays s ((n : Nat) : Int)) < dateToDay s + (n : Int)
    rw [dateToDay_addDays]
    omega
  · omega

/-- The anchor date of the `k`-th month yielded by `Year.get_months`. -/
def monthAnchor (y : Int) (k : Nat) : Date :=
  if k < 12 then ⟨y, (k : Int) + 1, 1⟩ else ⟨y + 1, 1, 1⟩

theorem year_months (y : Int) :
    getPeriods monthRange ⟨y, 1, 1⟩ ⟨y + 1, 1, 1⟩ =
      (List.range 12).map (fun k : Nat => monthRange (monthAnchor y k)) := by
  unfold getPeriods
  have hfst : (monthRange ⟨y, 1, 1⟩).1 = ⟨y, 1, 1⟩ := rfl
  rw [hfst]
  have hyl := year_length y
  apply getPeriodsAux_spec
  · show monthRange ⟨y, 1, 1⟩ = monthRange (monthAnchor y 0)
    norm_num [monthAnchor]
  · intro k hk
    interval_cases k <;>
      exact month_start_lt y _ (by norm_num [monthAnchor]) (by norm_num [monthAnchor])
  · intro k hk
    interval_cases k <;> rfl
  · intro k hk
    interval_cases k <;> rfl
  · show ¬ dateToDay (monthRange (monthAnchor y 12)).1 < dateToDay ⟨y + 1, 1, 1⟩
    have h12 : (monthRange (monthAnchor y 12)).1 = ⟨y + 1, 1, 1⟩ := rfl
    rw [h12]
    omega
  · omega

theorem weekRange_start_bounds (fdow : Int) (d : Date) :
    dateToDay d - 6 ≤ dateToDay (weekRange fdow d).1 ∧
    dateToDay (weekRange fdow d).1 ≤ dateToDay d := by
  simp only [weekRange, Date.isoweekday]
  split_ifs <;> (try rw [dateToDay_addDays]) <;> omega

theorem weekRange_start_iso (fdow : Int) (d : Date) :
    ((weekRange fdow d).1).isoweekday = if fdow = 1 then 1 else 7 := by
  simp only [weekRange, Date.isoweekday]
  split_ifs <;> (try rw [dateToDay_addDays]) <;> omega

theorem weekRange_end (fdow : Int) (d : Date) :
    (weekRange fdow d).2 = addDays (weekRange fdow d).1 7 := rfl

theorem weekRange_canonical (fdow : Int) (d : Date)
    (hd : dayToDate (dateToDay d) = d) :
    dayToDate (dateToDay (weekRange fdow d).1) = (weekRange fdow d).1 := by
  simp only [weekRange]
  split_ifs <;> first
    | (unfold addDays; rw [dateToDay_dayToDate])
    | exact hd

theorem weekRange_aligned (fdow : Int) (s : Date) (j : Int) :
    weekRange fdow (addDays (weekRange fdow s).1 (7 * j)) =
      (addDays (weekRange fdow s).1 (7 * j),
       addDays (weekRange fdow s).1 (7 * j + 7)) := by
  have hiso0 := weekRange_start_iso fdow s
  have hisoj : (addDays (weekRange fdow s).1 (7 * j)).isoweekday =
      ((weekRange fdow s).1).isoweekday := by
    unfold Date.isoweekday
    rw [dateToDay_addDays]
    omega
  have hsub : (if fdow = 1 then (addDays (weekRange fdow s).1 (7 * j)).isoweekday - 1
      else if (addDays (weekRange fdow s).1 (7 * j)).isoweekday = 7 then 0
      else (addDays (weekRange fdow s).1 (7 * j)).isoweekday) = 0 := by
    rw [hisoj, hiso0]
    split_ifs with h1 h2 <;> omega
  show (let sub_days : Int :=
      if fdow = 1 then (addDays (weekRange fdow s).1 (7 * j)).isoweekday - 1
      else if (addDays (weekRange fdow s).1 (7 * j)).isoweekday = 7 then 0
      else (addDays (weekRange fdow s).1 (7 * j)).isoweekday
    let start := if sub_days > 0 then addDays (addDays (weekRange fdow s).1 (7 * j)) (-sub_days)
      else addDays (weekRange fdow s).1 (7 * j)
    (start, addDays start 7)) = _
  rw [hsub]
  simp only [gt_iff_lt, lt_self_iff_false, if_false]
  rw [addDays_addDays]

theorem getPeriods_weeks (fdow : Int) (s pend : Date) (n : Nat)
    (hcanon : dayToDate (dateToDay s) = s)
    (hn : dateToDay pend - dateToDay (weekRange fdow s).1 ≤ 7 * (n : Int))
    (hn' : 7 * ((n : Int) - 1) < dateToDay pend - dateToDay (weekRange fdow s).1) :
    getPeriods (weekRange fdow) s pend =
      (List.range n).map (fun k : Nat =>
        (addDays (weekRange fdow s).1 (7 * (k : Int)),
         addDays (weekRange fdow s).1 (7 * (k : Int) + 7))) := by
  have hw0 := weekRange_canonical fdow s hcanon
  unfold getPeriods
  apply getPeriodsAux_spec
  · have hz : addDays (weekRange fdow s).1 (7 * ((0 : Nat) : Int)) = (weekRange fdow s).1 := by
      unfold addDays
      norm_num
      exact hw0
    show weekRange fdow s =
      (addDays (weekRange fdow s).1 (7 * ((0 : Nat) : Int)),
       addDays (weekRange fdow s).1 (7 * ((0 : Nat) : Int) + 7))
    rw [hz]
    have h7 : (7 : Int) * ((0 : Nat) : Int) + 7 = 7 := by norm_num
    rw [h7, ← weekRange_end fdow s]
  · intro k hk
    show dateToDay (addDays (weekRange fdow s).1 (7 * (k : Int))) < dateToDay pend
    rw [dateToDay_addDays]
    omega
  · intro k hk
    exact weekRange_aligned fdow s (k : Int)
  · intro k hk
    have h := weekRange_aligned fdow s ((k : Int) + 1)
    have harg : 7 * ((k : Int) + 1) = 7 * (k : Int) + 7 := by ring
    rw [harg] at h
    rw [h]
    push_cast
    constructor
  · show ¬ dateToDay (addDays (weekRange fdow s).1 (7 * ((n : Nat) : Int))) < dateToDay pend
    rw [dateToDay_addDays]
    omega
  · have hb := weekRange_start_bounds fdow s
    omega

theorem first_of_month_valid (y m : Int) (h1 : 1 ≤ m) (h2 : m ≤ 12) :
    (⟨y, m, 1⟩ : Date).Valid := by
  refine ⟨h1, h2, by norm_num, ?_⟩
  show (1 : Int) ≤ monthLen y m
  have := monthLen_ge y m
  omega

theorem monthEnd_canonical (y m : Int) (h1 : 1 ≤ m) (h2 : m ≤ 12) :
    dayToDate (dateToDay (monthRange ⟨y, m, 1⟩).2) = (monthRange ⟨y, m, 1⟩).2 := by
  apply dayToDate_dateToDay
  have h2' : (monthRange ⟨y, m, 1⟩).2 =
      if m = 12 then (⟨y + 1, 1, 1⟩ : Date) else ⟨y, m + 1, 1⟩ := rfl
  rw [h2']
  split_ifs with h
  · exact first_of_month_valid (y + 1) 1 (by norm_num) (by norm_num)
  · exact first_of_month_valid y (m + 1) (by omega) (by omega)

theorem month_addDays_end (y m : Int) (h1 : 1 ≤ m) (h2 : m ≤ 12) :
    addDays ⟨y, m, 1⟩ (monthLen y m) = (monthRange ⟨y, m, 1⟩).2 := by
  unfold addDays
  rw [← monthRange_days y m h1 h2]
  exact monthEnd_canonical y m h1 h2

/-- C3 (amended): subdivision behaviour of `get_periods`.  For
Year→Months (`get_months`), Month→Days (`Month.get_days`) and Week→Days
(`Week.get_days`) the children are contiguous and non-overlapping (each
child's end is the next child's start), the first child starts at the
parent's start, the last child ends at the parent's end, and the child
count matches the parent's length.  For Month→Weeks (`get_weeks`) the
children are contiguous seven-day weeks, but the first child starts at
the configured week-start weekday on or before the parent's start (up to
six days early, not necessarily at the parent's start) and the last
child's end reaches at least — possibly past — the parent's end, so the
weeks cover a superset of the month's range. -/
theorem getPeriods_subdivision :
    (∀ y : Int,
      getPeriods monthRange ⟨y, 1, 1⟩ ⟨y + 1, 1, 1⟩ =
        [(⟨y, 1, 1⟩, ⟨y, 2, 1⟩), (⟨y, 2, 1⟩, ⟨y, 3, 1⟩), (⟨y, 3, 1⟩, ⟨y, 4, 1⟩),
         (⟨y, 4, 1⟩, ⟨y, 5, 1⟩), (⟨y, 5, 1⟩, ⟨y, 6, 1⟩), (⟨y, 6, 1⟩, ⟨y, 7, 1⟩),
         (⟨y, 7, 1⟩, ⟨y, 8, 1⟩), (⟨y, 8, 1⟩, ⟨y, 9, 1⟩), (⟨y, 9, 1⟩, ⟨y, 10, 1⟩),
         (⟨y, 10, 1⟩, ⟨y, 11, 1⟩), (⟨y, 11, 1⟩, ⟨y, 12, 1⟩),
         (⟨y, 12, 1⟩, ⟨y + 1, 1, 1⟩)] ∧
      List.Chain' (fun a b : Date × Date => a.2 = b.1)
        (getPeriods monthRange ⟨y, 1, 1⟩ ⟨y + 1, 1, 1⟩)) ∧
    (∀ y m : Int, 1 ≤ m → m ≤ 12 →
      getPeriods dayRange ⟨y, m, 1⟩ (monthRange ⟨y, m, 1⟩).2 =
        (List.range (monthLen y m).toNat).map
          (fun k : Nat =>
            (addDays ⟨y, m, 1⟩ (k : Int), addDays ⟨y, m, 1⟩ ((k : Int) + 1))) ∧
      List.Chain' (fun a b : Date × Date => a.2 = b.1)
        (getPeriods dayRange ⟨y, m, 1⟩ (monthRange ⟨y, m, 1⟩).2) ∧
      (getPeriods dayRange ⟨y, m, 1⟩ (monthRange ⟨y, m, 1⟩).2).head? =
        some (⟨y, m, 1⟩, addDays ⟨y, m, 1⟩ 1) ∧
      (getPeriods dayRange ⟨y, m, 1⟩ (monthRange ⟨y, m, 1⟩).2).getLast? =
        some (addDays ⟨y, m, 1⟩ (monthLen y m - 1), (monthRange ⟨y, m, 1⟩).2) ∧
      (getPeriods dayRange ⟨y, m, 1⟩ (monthRange ⟨y, m, 1⟩).2).length =
        (monthLen y m).toNat) ∧
    (∀ fdow : Int, ∀ d : Date, d.Valid →
      getPeriods dayRange (weekRange fdow d).1 (weekRange fdow d).2 =
        (List.range 7).map
          (fun k : Nat => (addDays (weekRange fdow d).1 (k : Int),
            addDays (weekRange fdow d).1 ((k : Int) + 1))) ∧
      List.Chain' (fun a b : Date × Date => a.2 = b.1)
        (getPeriods dayRange (weekRange fdow d).1 (weekRange fdow d).2) ∧
      (getPeriods dayRange (weekRange fdow d).1 (weekRange fdow d).2).head? =
        some ((weekRange fdow d).1, addDays (weekRange fdow d).1 1) ∧
      (getPeriods dayRange (weekRange fdow d).1 (weekRange fdow d).2).getLast? =
        some (addDays (weekRange fdow d).1 6, (weekRange fdow d).2) ∧
      (getPeriods dayRange (weekRange fdow d).1 (weekRange fdow d).2).length = 7) ∧
    (∀ fdow y m : Int, 1 ≤ m → m ≤ 12 →
      getPeriods (weekRange fdow) ⟨y, m, 1⟩ (monthRange ⟨y, m, 1⟩).2 =
        (List.range ((dateToDay (monthRange ⟨y, m, 1⟩).2 -
            dateToDay (weekRange fdow ⟨y, m, 1⟩).1 + 6) / 7).toNat).map
          (fun k : Nat => (addDays (weekRange fdow ⟨y, m, 1⟩).1 (7 * (k : Int)),
            addDays (weekRange fdow ⟨y, m, 1⟩).1 (7 * (k : Int) + 7))) ∧
      List.Chain' (fun a b : Date × Date => a.2 = b.1)
        (getPeriods (weekRange fdow) ⟨y, m, 1⟩ (monthRange ⟨y, m, 1⟩).2) ∧
      (getPeriods (weekRange fdow) ⟨y, m, 1⟩ (monthRange ⟨y, m, 1⟩).2).head? =
        some ((weekRange fdow ⟨y, m, 1⟩).1, addDays (weekRange fdow ⟨y, m, 1⟩).1 7) ∧
      dateToDay (weekRange fdow ⟨y, m, 1⟩).1 ≤ dateToDay ⟨y, m, 1⟩ ∧
      dateToDay ⟨y, m, 1⟩ < dateToDay (weekRange fdow ⟨y, m, 1⟩).1 + 7 ∧
      dateToDay (monthRange ⟨y, m, 1⟩).2 ≤
        dateToDay (weekRange fdow ⟨y, m, 1⟩).1 +
          7 * ((dateToDay (monthRange ⟨y, m, 1⟩).2 -
            dateToDay (weekRange fdow ⟨y, m, 1⟩).1 + 6) / 7)) := by
  refine ⟨?_, ?_, ?_, ?_⟩
  · intro y
    have hl : getPeriods monthRange ⟨y, 1, 1⟩ ⟨y + 1, 1, 1⟩ =
        [(⟨y, 1, 1⟩, ⟨y, 2, 1⟩), (⟨y, 2, 1⟩, ⟨y, 3, 1⟩), (⟨y, 3, 1⟩, ⟨y, 4, 1⟩),
         (⟨y, 4, 1⟩, ⟨y, 5, 1⟩), (⟨y, 5, 1⟩, ⟨y, 6, 1⟩), (⟨y, 6, 1⟩, ⟨y, 7, 1⟩),
         (⟨y, 7, 1⟩, ⟨y, 8, 1⟩), (⟨y, 8, 1⟩, ⟨y, 9, 1⟩), (⟨y, 9, 1⟩, ⟨y, 10, 1⟩),
         (⟨y, 10, 1⟩, ⟨y, 11, 1⟩), (⟨y, 11, 1⟩, ⟨y, 12, 1⟩),
         (⟨y, 12, 1⟩, ⟨y + 1, 1, 1⟩)] := by
      rw [year_months y]
      rfl
    refine ⟨hl, ?_⟩
    rw [hl]
    simp [List.chain'_cons]
  · intro y m h1 h2
    have hml := monthLen_ge y m
    have hcanon := dayToDate_dateToDay _ (first_of_month_valid y m h1 h2)
    have hend : dateToDay (monthRange ⟨y, m, 1⟩).2 =
        dateToDay ⟨y, m, 1⟩ + (((monthLen y m).toNat : Nat) : Int) := by
      rw [monthRange_days y m h1 h2]
      omega
    have hlist := getPeriods_days ⟨y, m, 1⟩ _ (monthLen y m).toNat hcanon hend
    have e0 : addDays (⟨y, m, 1⟩ : Date) (((0 : Nat) : Nat) : Int) = ⟨y, m, 1⟩ := by
      unfold addDays
      norm_num
      exact hcanon
    refine ⟨hlist, ?_, ?_, ?_, ?_⟩
    · rw [hlist]
      apply chain_range_map
      intro k hk
      show addDays _ ((k : Int) + 1) = addDays _ (((k + 1 : Nat) : Nat) : Int)
      congr 1
    · rw [hlist, head_range_map _ _ (by omega)]
      rw [e0, show (((0 : Nat) : Nat) : Int) + 1 = 1 from by norm_num]
    · rw [hlist, last_range_map _ _ (by omega)]
      rw [show ((((monthLen y m).toNat - 1 : Nat) : Nat) : Int) = monthLen y m - 1 from by omega]
      rw [show monthLen y m - 1 + 1 = monthLen y m from by ring]
      rw [month_addDays_end y m h1 h2]
    · rw [hlist, List.length_map, List.length_range]
  · intro fdow d hd
    have hcanon0 := dayToDate_dateToDay d hd
    have hw0 := weekRange_canonical fdow d hcanon0
    have hend : dateToDay (weekRange fdow d).2 =
        dateToDay (weekRange fdow d).1 + ((7 : Nat) : Int) := by
      rw [weekRange_end fdow d, dateToDay_addDays]
      norm_num
    have hlist := getPeriods_days _ _ 7 hw0 hend
    have e0 : addDays (weekRange fdow d).1 (((0 : Nat) : Nat) : Int) = (weekRange fdow d).1 := by
      unfold addDays
      norm_num
      exact hw0
    refine ⟨hlist, ?_, ?_, ?_, ?_⟩
    · rw [hlist]
      apply chain_range_map
      intro k hk
      show addDays _ ((k : Int) + 1) = addDays _ (((k + 1 : Nat) : Nat) : Int)
      congr 1
    · rw [hlist, head_range_map _ _ (by omega)]
      rw [e0, show (((0 : Nat) : Nat) : Int) + 1 = 1 from by norm_num]
    · rw [hlist, last_range_map _ _ (by omega)]
      rw [show ((((7 : Nat) - 1 : Nat) : Nat) : Int) = 6 from by norm_num]
      rw [show (6 : Int) + 1 = 7 from by norm_num]
      rw [← weekRange_end fdow d]
    · rw [hlist, List.length_map, List.length_range]
  · intro fdow y m h1 h2
    have hml := monthLen_ge y m
    have hb := weekRange_start_bounds fdow ⟨y, m, 1⟩
    have hcanon := dayToDate_dateToDay _ (first_of_month_valid y m h1 h2)
    have hw0 := weekRange_canonical fdow ⟨y, m, 1⟩ hcanon
    have hmr := monthRange_days y m h1 h2
    have hpos : 0 < dateToDay (monthRange ⟨y, m, 1⟩).2 -
        dateToDay (weekRange fdow ⟨y, m, 1⟩).1 := by
      omega
    have hn : dateToDay (monthRange ⟨y, m, 1⟩).2 -
        dateToDay (weekRange fdow ⟨y, m, 1⟩).1 ≤
        7 * ((((dateToDay (monthRange ⟨y, m, 1⟩).2 -
          dateToDay (weekRange fdow ⟨y, m, 1⟩).1 + 6) / 7).toNat : Nat) : Int) := by
      omega
    have hn' : 7 * (((((dateToDay (monthRange ⟨y, m, 1⟩).2 -
          dateToDay (weekRange fdow ⟨y, m, 1⟩).1 + 6) / 7).toNat : Nat) : Int) - 1) <
        dateToDay (monthRange ⟨y, m, 1⟩).2 -
          dateToDay (weekRange fdow ⟨y, m, 1⟩).1 := by
      omega
    have hlist := getPeriods_weeks fdow ⟨y, m, 1⟩ (monthRange ⟨y, m, 1⟩).2
      ((dateToDay (monthRange ⟨y, m, 1⟩).2 -
        dateToDay (weekRange fdow ⟨y, m, 1⟩).1 + 6) / 7).toNat hcanon hn hn'
    have e0 : addDays (weekRange fdow ⟨y, m, 1⟩).1 (7 * (((0 : Nat) : Nat) : Int)) =
        (weekRange fdow ⟨y, m, 1⟩).1 := by
      unfold addDays
      norm_num
      exact hw0
    refine ⟨hlist, ?_, ?_, hb.2, by omega, by omega⟩
    · rw [hlist]
      apply chain_range_map
      intro k hk
      show addDays _ (7 * (k : Int) + 7) = addDays _ (7 * (((k + 1 : Nat) : Nat) : Int))
      congr 1
    · rw [hlist, head_range_map _ _ (by omega)]
      rw [e0, show 7 * (((0 : Nat) : Nat) : Int) + 7 = 7 from by norm_num]

/-- C3 counterexample: for the parent Month of February 2024 (anchored
2024-02-15) with week-start Monday, `get_weeks` yields a first week
starting 2024-01-29 — not the parent's start 2024-02-01 — and a last
week ending 2024-03-04 — not the parent's end 2024-03-01. -/
theorem getPeriods_weeks_counterexample :
    (getPeriods (weekRange 1) (monthRange ⟨2024, 2, 15⟩).1
        (monthRange ⟨2024, 2, 15⟩).2).head? = some (⟨2024, 1, 29⟩, ⟨2024, 2, 5⟩) ∧
    (⟨2024, 1, 29⟩ : Date) ≠ (monthRange ⟨2024, 2, 15⟩).1 ∧
    (getPeriods (weekRange 1) (monthRange ⟨2024, 2, 15⟩).1
        (monthRange ⟨2024, 2, 15⟩).2).getLast? = some (⟨2024, 2, 26⟩, ⟨2024, 3, 4⟩) ∧
    (⟨2024, 3, 4⟩ : Date) ≠ (monthRange ⟨2024, 2, 15⟩).2 := by
  refine ⟨by decide, by decide, by decide, by decide⟩

theorem getPeriods_subdivision_witness :
    getPeriods monthRange ⟨2024, 1, 1⟩ ⟨2024 + 1, 1, 1⟩ =
      [(⟨2024, 1, 1⟩, ⟨2024, 2, 1⟩), (⟨2024, 2, 1⟩, ⟨2024, 3, 1⟩),
       (⟨2024, 3, 1⟩, ⟨2024, 4, 1⟩), (⟨2024, 4, 1⟩, ⟨2024, 5, 1⟩),
       (⟨2024, 5, 1⟩, ⟨2024, 6, 1⟩), (⟨2024, 6, 1⟩, ⟨2024, 7, 1⟩),
       (⟨2024, 7, 1⟩, ⟨2024, 8, 1⟩), (⟨2024, 8, 1⟩, ⟨2024, 9, 1⟩),
       (⟨2024, 9, 1⟩, ⟨2024, 10, 1⟩), (⟨2024, 10, 1⟩, ⟨2024, 11, 1⟩),
       (⟨2024, 11, 1⟩, ⟨2024, 12, 1⟩), (⟨2024, 12, 1⟩, ⟨2024 + 1, 1, 1⟩)] ∧
    ((1 : Int) ≤ 2 ∧ (2 : Int) ≤ 12 ∧
      (getPeriods dayRange ⟨2024, 2, 1⟩ (monthRange ⟨2024, 2, 1⟩).2).length = 29) ∧
    ((⟨2024, 2, 15⟩ : Date).Valid ∧
      (getPeriods dayRange (weekRange 1 ⟨2024, 2, 15⟩).1
        (weekRange 1 ⟨2024, 2, 15⟩).2).length = 7) ∧
    (getPeriods (weekRange 1) ⟨2024, 2, 1⟩ (monthRange ⟨2024, 2, 1⟩).2).head? =
      some ((weekRange 1 ⟨2024, 2, 1⟩).1, addDays (weekRange 1 ⟨2024, 2, 1⟩).1 7) :=
  ⟨(getPeriods_subdivision.1 2024).1,
   ⟨by norm_num, by norm_num,
     ((getPeriods_subdivision.2.1 2024 2 (by norm_num) (by norm_num)).2.2.2.2).trans
       (by decide)⟩,
   ⟨by decide,
     (getPeriods_subdivision.2.2.1 1 ⟨2024, 2, 15⟩ (by decide)).2.2.2.2⟩,
   (getPeriods_subdivision.2.2.2 1 2024 2 (by norm_num) (by norm_num)).2.2.1⟩

/-- C4: a `Month` anchored at a valid reference date starts at midnight
on the first of that month and ends at midnight on the first of the
following month (December rolling over to January of the next year),
spanning exactly the month's day count; concretely, the Month anchored
at 2024-02-15 has start 2024-02-01 and end 2024-03-01, its `get_days()`
yields 29 Day periods, and `next_month()` starts at 2024-03-01. -/
theorem monthRange_spec (d : Date) (h : d.Valid) :
    (monthRange d).1 = ⟨d.year, d.month, 1⟩ ∧
    (monthRange d).2 =
      (if d.month = 12 then ⟨d.year + 1, 1, 1⟩ else ⟨d.year, d.month + 1, 1⟩) ∧
    dateToDay (monthRange d).2 = dateToDay (monthRange d).1 + monthLen d.year d.month ∧
    (monthRange ⟨2024, 2, 15⟩).1 = ⟨2024, 2, 1⟩ ∧
    (monthRange ⟨2024, 2, 15⟩).2 = ⟨2024, 3, 1⟩ ∧
    (getPeriods dayRange (monthRange ⟨2024, 2, 15⟩).1
      (monthRange ⟨2024, 2, 15⟩).2).length = 29 ∧
    (month_next (monthRange ⟨2024, 2, 15⟩)).1 = ⟨2024, 3, 1⟩ := by
  obtain ⟨hm1, hm2, _, _⟩ := h
  exact ⟨rfl, rfl, monthRange_days d.year d.month hm1 hm2,
    by decide, by decide, by decide, by decide⟩

theorem monthRange_spec_witness :
    (⟨2024, 2, 15⟩ : Date).Valid ∧
    dateToDay (monthRange ⟨2024, 2, 15⟩).2 =
      dateToDay (monthRange ⟨2024, 2, 15⟩).1 + monthLen 2024 2 :=
  ⟨by decide, (monthRange_spec ⟨2024, 2, 15⟩ (by decide)).2.2.1⟩

/-- C5: a `Week`'s start is midnight of the configured week-start
weekday on or before the reference date and its end is exactly seven
days later: with `FIRST_DAY_OF_WEEK = 1` (Monday) the start's ISO
weekday is 1, with the Sunday setting it is 7 and a reference date that
is itself a Sunday is kept as the start (offset 0); concretely, with
week-start Monday the week anchored at Thursday 2024-02-15 spans
2024-02-12 (a Monday) to 2024-02-19. -/
theorem weekRange_spec (fdow : Int) (d : Date) :
    ((weekRange 1 d).1).isoweekday = 1 ∧
    ((weekRange 0 d).1).isoweekday = 7 ∧
    (d.isoweekday = 7 → (weekRange 0 d).1 = d) ∧
    dateToDay (weekRange fdow d).2 = dateToDay (weekRange fdow d).1 + 7 ∧
    dateToDay (weekRange fdow d).1 ≤ dateToDay d ∧
    dateToDay d < dateToDay (weekRange fdow d).1 + 7 ∧
    (⟨2024, 2, 15⟩ : Date).isoweekday = 4 ∧
    weekRange 1 ⟨2024, 2, 15⟩ = (⟨2024, 2, 12⟩, ⟨2024, 2, 19⟩) := by
  refine ⟨?_, ?_, ?_, ?_, ?_, ?_, by decide, by decide⟩
  · have h := weekRange_start_iso 1 d
    simpa using h
  · have h := weekRange_start_iso 0 d
    norm_num at h
    exact h
  · intro h7
    simp [weekRange, h7]
  · rw [weekRange_end, dateToDay_addDays]
  · exact (weekRange_start_bounds fdow d).2
  · have h := (weekRange_start_bounds fdow d).1
    omega

theorem weekRange_spec_witness :
    (⟨2024, 2, 18⟩ : Date).isoweekday = 7 ∧
    (weekRange 0 ⟨2024, 2, 18⟩).1 = ⟨2024, 2, 18⟩ :=
  ⟨by decide, (weekRange_spec 0 ⟨2024, 2, 18⟩).2.2.1 (by decide)⟩

/-- C6: `Day` navigation is invertible on valid dates:
`d.next().prev().start = d.start` and `d.prev().next().start = d.start`. -/
theorem day_nav_invertible (d : Date) (h : d.Valid) :
    (day_prev (day_next (dayRange d))).1 = (dayRange d).1 ∧
    (day_next (day_prev (dayRange d))).1 = (dayRange d).1 := by
  constructor
  · show dayToDate (dateToDay (dayToDate (dateToDay d + 1)) + -1) = d
    rw [dateToDay_dayToDate]
    rw [show dateToDay d + 1 + -1 = dateToDay d from by ring]
    exact dayToDate_dateToDay d h
  · show dayToDate (dateToDay (dayToDate (dateToDay d + -1)) + 1) = d
    rw [dateToDay_dayToDate]
    rw [show dateToDay d + -1 + 1 = dateToDay d from by ring]
    exact dayToDate_dateToDay d h

theorem day_nav_invertible_witness :
    (⟨2024, 2, 15⟩ : Date).Valid ∧
    (day_prev (day_next (dayRange ⟨2024, 2, 15⟩))).1 = (dayRange ⟨2024, 2, 15⟩).1 :=
  ⟨by decide, (day_nav_invertible ⟨2024, 2, 15⟩ (by decide)).1⟩

/-- C10 counterexample: on February 2024 (29 days), `get_day(30)`
returns a `Day` starting 2024-03-01, at (not before) the month's end —
outside the month's range. -/
theorem month_get_day_counterexample :
    (1 : Int) ≤ 30 ∧
    (month_get_day ⟨2024, 2, 1⟩ 30).1 = ⟨2024, 3, 1⟩ ∧
    dateToDay (monthRange ⟨2024, 2, 1⟩).2 ≤ dateToDay (month_get_day ⟨2024, 2, 1⟩ 30).1 := by
  refine ⟨by decide, by decide, by decide⟩

/-- C10 (amended): for every month and every `n ≥ 1`, `get_day(n)`
returns the `Day` starting exactly `n - 1` days after the month's start
(the `n`-th day, 1-indexed); that day lies within the month's range when
`n` does not exceed the month's day count (but not in general — see the
counterexample for `n` past the month's length). -/
theorem month_get_day_spec (y m n : Int) (h1 : 1 ≤ m) (h2 : m ≤ 12) (hn : 1 ≤ n) :
    (month_get_day ⟨y, m, 1⟩ n).1 = addDays ⟨y, m, 1⟩ (n - 1) ∧
    dateToDay (month_get_day ⟨y, m, 1⟩ n).1 = dateToDay ⟨y, m, 1⟩ + (n - 1) ∧
    (n ≤ monthLen y m →
      dateToDay ⟨y, m, 1⟩ ≤ dateToDay (month_get_day ⟨y, m, 1⟩ n).1 ∧
      dateToDay (month_get_day ⟨y, m, 1⟩ n).2 ≤ dateToDay (monthRange ⟨y, m, 1⟩).2) := by
  have hstart : (month_get_day ⟨y, m, 1⟩ n).1 = addDays ⟨y, m, 1⟩ (n - 1) := by
    unfold month_get_day dayRange
    split_ifs with hgt
    · rfl
    · have hn1 : n = 1 := by omega
      subst hn1
      show (⟨y, m, 1⟩ : Date) = addDays ⟨y, m, 1⟩ (1 - 1)
      unfold addDays
      norm_num
      exact (dayToDate_dateToDay _ (first_of_month_valid y m h1 h2)).symm
  have hday : dateToDay (month_get_day ⟨y, m, 1⟩ n).1 = dateToDay ⟨y, m, 1⟩ + (n - 1) := by
    rw [hstart, dateToDay_addDays]
  refine ⟨hstart, hday, ?_⟩
  intro hle
  have hend : (month_get_day ⟨y, m, 1⟩ n).2 = addDays (month_get_day ⟨y, m, 1⟩ n).1 1 := rfl
  have hmr := monthRange_days y m h1 h2
  constructor
  · omega
  · rw [hend, dateToDay_addDays]
    omega

theorem month_get_day_spec_witness :
    ((1 : Int) ≤ 2 ∧ (2 : Int) ≤ 12 ∧ (1 : Int) ≤ 15) ∧
    dateToDay (month_get_day ⟨2024, 2, 1⟩ 15).1 = dateToDay ⟨2024, 2, 1⟩ + 14 :=
  ⟨⟨by norm_num, by norm_num, by norm_num⟩, by
    have h := (month_get_day_spec 2024 2 15 (by norm_num) (by norm_num) (by norm_num)).2.1
    omega⟩
